import Mathlib

/-!
Verification of the contact_normalizer repository.

The repository contains two implementations of the normalization engine:
- src/normalize_contacts.py  (module-level functions plus the parallel pipeline);
  embedded below in namespace `NormContacts`.
- src/normalize_contact.py   (older class-based variant, no future-date check,
  different date-format precedence and ambiguous-year rule);
  embedded below in namespace `NormContact`.

Python's datetime.strptime is embedded following CPython's _strptime module:
each directive is a regex alternation tried in order with backtracking, the
whole string must be consumed, %Y is exactly four digits, %y is exactly two
digits and is expanded by strptime itself (00-68 -> 2000-2068, 69-99 ->
1969-1999), and a regex match whose field values do not form a real calendar
date raises ValueError (the caller treats that like a non-match and tries the
next format).  datetime.now() is modelled by an explicit `today : Date`
parameter: a parsed date (midnight) is strictly after "now" exactly when its
calendar date is strictly after today's calendar date.
-/

def digitVal (c : Char) : Nat := c.toNat - 48

/-- Python str.strip / str.lower on a character list (ASCII data). -/
def trimChars (s : List Char) : List Char :=
  ((s.dropWhile Char.isWhitespace).reverse.dropWhile Char.isWhitespace).reverse

def trimS (s : String) : String := String.mk (trimChars s.data)

def lowerS (s : String) : String := String.mk (s.data.map Char.toLower)

/-- Value of a digit run, re.findall field converted with int(). -/
def natOfDigits (run : List Char) : Nat :=
  run.foldl (fun n c => 10 * n + digitVal c) 0

/-- re.findall(r"\d+", s) with each run converted to int. -/
def digitRunsGo : List Char → Option Nat → List Nat
  | [], none => []
  | [], some acc => [acc]
  | c :: rest, none =>
      if c.isDigit then digitRunsGo rest (some (digitVal c)) else digitRunsGo rest none
  | c :: rest, some acc =>
      if c.isDigit then digitRunsGo rest (some (10 * acc + digitVal c))
      else acc :: digitRunsGo rest none

def digitRuns (s : List Char) : List Nat := digitRunsGo s none

structure Date where
  year : Nat
  month : Nat
  day : Nat
deriving DecidableEq

def isLeapYear (y : Nat) : Bool :=
  y % 4 = 0 && (y % 100 ≠ 0 || y % 400 = 0)

def daysInMonth (y m : Nat) : Nat :=
  if m = 2 then (if isLeapYear y then 29 else 28)
  else if m = 4 ∨ m = 6 ∨ m = 9 ∨ m = 11 then 30
  else 31

/-- datetime(year, month, day): validates the calendar, else raises ValueError
(modelled as none).  MINYEAR = 1, MAXYEAR = 9999. -/
def mkDatetime (y m d : Nat) : Option Date :=
  if 1 ≤ y ∧ y ≤ 9999 ∧ 1 ≤ m ∧ m ≤ 12 ∧ 1 ≤ d ∧ d ≤ daysInMonth y m then
    some ⟨y, m, d⟩
  else none

/-- Strict order on calendar dates.  A parsed datetime (at midnight) compares
strictly greater than datetime.now() iff its date is strictly after today. -/
def dateLt (a b : Date) : Bool :=
  decide (a.year < b.year) ||
    (a.year == b.year &&
      (decide (a.month < b.month) || (a.month == b.month && decide (a.day < b.day))))

def padNum (width n : Nat) : String :=
  let s := toString n
  String.mk (List.replicate (width - s.length) '0') ++ s

/-- dt.strftime("%Y-%m-%d"). -/
def strftimeYMD (d : Date) : String :=
  padNum 4 d.year ++ "-" ++ padNum 2 d.month ++ "-" ++ padNum 2 d.day

/-! ## strptime -/

inductive FTok where
  | lit : Char → FTok
  | ws : FTok
  | Y4 : FTok
  | y2 : FTok
  | m2 : FTok
  | d2 : FTok
  | bMon : FTok
  | BMon : FTok
deriving DecidableEq

inductive FVal where
  | year : Nat → FVal
  | month : Nat → FVal
  | day : Nat → FVal
  | skip : FVal
deriving DecidableEq

structure PVal where
  year : Nat
  month : Nat
  day : Nat
deriving DecidableEq

def PVal.init : PVal := ⟨1900, 1, 1⟩

def applyFVal : FVal → PVal → PVal
  | .year v, p => ⟨v, p.month, p.day⟩
  | .month v, p => ⟨p.year, v, p.day⟩
  | .day v, p => ⟨p.year, p.month, v⟩
  | .skip, p => p

/-- Exactly n digits (the %Y and %y regexes). -/
def takeDigitsAux : Nat → List Char → Nat → Option (Nat × List Char)
  | 0, s, acc => some (acc, s)
  | n + 1, c :: s, acc =>
      if c.isDigit then takeDigitsAux n s (10 * acc + digitVal c) else none
  | _ + 1, [], _ => none

def takeDigits (n : Nat) (s : List Char) : Option (Nat × List Char) :=
  takeDigitsAux n s 0

/-- strptime expands %y itself: [00,68] -> 2000s, [69,99] -> 1900s. -/
def pivot68 (v : Nat) : Nat := if v ≤ 68 then 2000 + v else 1900 + v

/-- %m is the alternation 1[0-2] | 0[1-9] | [1-9]; candidates in regex
backtracking order. -/
def mCands (s : List Char) : List (Nat × List Char) :=
  (match s with
   | c1 :: c2 :: r =>
       if c1 = '1' ∧ '0' ≤ c2 ∧ c2 ≤ '2' then [(10 + digitVal c2, r)] else []
   | _ => []) ++
  (match s with
   | c1 :: c2 :: r =>
       if c1 = '0' ∧ '1' ≤ c2 ∧ c2 ≤ '9' then [(digitVal c2, r)] else []
   | _ => []) ++
  (match s with
   | c1 :: r => if '1' ≤ c1 ∧ c1 ≤ '9' then [(digitVal c1, r)] else []
   | _ => [])

/-- %d is the alternation 3[01] | [12]\d | 0[1-9] | [1-9]. -/
def dCands (s : List Char) : List (Nat × List Char) :=
  (match s with
   | c1 :: c2 :: r =>
       if c1 = '3' ∧ '0' ≤ c2 ∧ c2 ≤ '1' then [(30 + digitVal c2, r)] else []
   | _ => []) ++
  (match s with
   | c1 :: c2 :: r =>
       if ('1' ≤ c1 ∧ c1 ≤ '2') ∧ c2.isDigit then
         [(10 * digitVal c1 + digitVal c2, r)]
       else []
   | _ => []) ++
  (match s with
   | c1 :: c2 :: r =>
       if c1 = '0' ∧ '1' ≤ c2 ∧ c2 ≤ '9' then [(digitVal c2, r)] else []
   | _ => []) ++
  (match s with
   | c1 :: r => if '1' ≤ c1 ∧ c1 ≤ '9' then [(digitVal c1, r)] else []
   | _ => [])

/-- Case-insensitive literal month-name match; returns the rest on success. -/
def matchCI : List Char → List Char → Option (List Char)
  | [], s => some s
  | _ :: _, [] => none
  | p :: ps, c :: cs => if c.toLower = p then matchCI ps cs else none

def monthAbbrs : List (String × Nat) :=
  [("jan", 1), ("feb", 2), ("mar", 3), ("apr", 4), ("may", 5), ("jun", 6),
   ("jul", 7), ("aug", 8), ("sep", 9), ("oct", 10), ("nov", 11), ("dec", 12)]

/-- Full month names in the alternation order _strptime builds (sorted by
length, longest first, stable). -/
def monthNames : List (String × Nat) :=
  [("september", 9), ("february", 2), ("november", 11), ("december", 12),
   ("january", 1), ("october", 10), ("august", 8), ("march", 3), ("april", 4),
   ("june", 6), ("july", 7), ("may", 5)]

/-- Candidates of one directive, in regex backtracking order.  Whitespace in a
format is compiled to \s+ (greedy, so longest run first). -/
def tokCands : FTok → List Char → List (FVal × List Char)
  | .lit ch, s =>
      match s with
      | c :: r => if c = ch then [(.skip, r)] else []
      | [] => []
  | .ws, s =>
      let k := (s.takeWhile Char.isWhitespace).length
      (List.range k).map (fun j => (FVal.skip, s.drop (k - j)))
  | .Y4, s =>
      match takeDigits 4 s with
      | some (v, r) => [(.year v, r)]
      | none => []
  | .y2, s =>
      match takeDigits 2 s with
      | some (v, r) => [(.year (pivot68 v), r)]
      | none => []
  | .m2, s => (mCands s).map (fun vr => (FVal.month vr.1, vr.2))
  | .d2, s => (dCands s).map (fun vr => (FVal.day vr.1, vr.2))
  | .bMon, s =>
      monthAbbrs.filterMap
        (fun nv => (matchCI nv.1.data s).map (fun r => (FVal.month nv.2, r)))
  | .BMon, s =>
      monthNames.filterMap
        (fun nv => (matchCI nv.1.data s).map (fun r => (FVal.month nv.2, r)))

/-- Depth-first backtracking over the directives: the first assignment under
which every directive matches, exactly as the backtracking regex engine
finds it (the end position is checked afterwards by the caller). -/
def matchToks : List FTok → List Char → PVal → Option (PVal × List Char)
  | [], s, p => some (p, s)
  | t :: ts, s, p =>
      (tokCands t s).findSome? fun c => matchToks ts c.2 (applyFVal c.1 p)

/-- datetime.strptime(s, fmt): regex must consume the whole string and the
fields must form a valid calendar date, else ValueError (none). -/
def strptime1 (fmt : List FTok) (s : List Char) : Option Date :=
  match matchToks fmt s PVal.init with
  | some (p, []) => mkDatetime p.year p.month p.day
  | some (_, _ :: _) => none
  | none => none

/-- The for-loop over formats: first format whose strptime succeeds. -/
def tryFormats (fmts : List (List FTok)) (s : List Char) : Option Date :=
  fmts.findSome? (fun f => strptime1 f s)

/-! ## Phone normalizer (identical in both source files) -/

def startsWith971 : List Char → Bool
  | '9' :: '7' :: '1' :: _ => true
  | _ => false

def normalize_phone (phone : String) : Option String :=
  match phone.data with
  | [] => none
  | c :: rest =>
      if c = '+' then
        let digits := rest.filter Char.isDigit
        if digits = [] then none
        else if 8 ≤ digits.length ∧ digits.length ≤ 15 then
          some (String.mk ('+' :: digits))
        else none
      else
        let digits := (c :: rest).filter Char.isDigit
        if digits = [] then none
        else if digits.head? = some '0' ∧ digits.length = 10 then
          some (String.mk ('+' :: '9' :: '7' :: '1' :: digits.tail))
        else if startsWith971 digits ∧ 8 ≤ digits.length ∧ digits.length ≤ 15 then
          some (String.mk ('+' :: digits))
        else if 8 ≤ digits.length ∧ digits.length ≤ 15 then
          some (String.mk ('+' :: digits))
        else none

/-- Two-digit year pivot shared by both files:
00-25 -> 2000-2025, 26-99 -> 1926-1999 (applied to a year < 100). -/
def adjust_two_digit_year (dt : Date) : Date :=
  if dt.year ≤ 25 then ⟨2000 + dt.year, dt.month, dt.day⟩
  else ⟨1900 + dt.year, dt.month, dt.day⟩

def pivotYear (y : Nat) : Nat :=
  if y < 100 then (if y ≤ 25 then 2000 + y else 1900 + y) else y

/-- The year adjustment both normalize_date functions apply to a freshly
parsed datetime: if dt.year < 100 then adjust_two_digit_year(dt) else dt. -/
def yearAdjusted (dt : Date) : Date :=
  if dt.year < 100 then adjust_two_digit_year dt else dt

/-! ## normalize_contacts.py (namespace NormContacts) -/

namespace NormContacts

/-- The formats_to_try list of src/normalize_contacts.py, in order. -/
def formats_to_try : List (List FTok) :=
  [ [.Y4, .lit '-', .m2, .lit '-', .d2]        -- %Y-%m-%d
  , [.Y4, .lit '/', .m2, .lit '/', .d2]        -- %Y/%m/%d
  , [.Y4, .lit '.', .m2, .lit '.', .d2]        -- %Y.%m.%d
  , [.Y4, .m2, .d2]                            -- %Y%m%d
  , [.d2, .lit '-', .bMon, .lit '-', .Y4]      -- %d-%b-%Y
  , [.d2, .lit '-', .BMon, .lit '-', .Y4]      -- %d-%B-%Y
  , [.d2, .ws, .bMon, .ws, .Y4]                -- %d %b %Y
  , [.d2, .ws, .BMon, .ws, .Y4]                -- %d %B %Y
  , [.bMon, .lit '-', .d2, .lit '-', .Y4]      -- %b-%d-%Y
  , [.BMon, .lit '-', .d2, .lit '-', .Y4]      -- %B-%d-%Y
  , [.bMon, .ws, .d2, .ws, .Y4]                -- %b %d %Y
  , [.BMon, .ws, .d2, .ws, .Y4]                -- %B %d %Y
  , [.bMon, .ws, .d2, .lit ',', .ws, .Y4]      -- %b %d, %Y
  , [.BMon, .ws, .d2, .lit ',', .ws, .Y4]      -- %B %d, %Y
  , [.d2, .lit '-', .bMon, .lit '-', .y2]      -- %d-%b-%y
  , [.d2, .lit '-', .BMon, .lit '-', .y2]      -- %d-%B-%y
  , [.d2, .ws, .bMon, .ws, .y2]                -- %d %b %y
  , [.d2, .lit '.', .bMon, .lit '.', .Y4]      -- %d.%b.%Y
  , [.d2, .lit '.', .BMon, .lit '.', .Y4]      -- %d.%B.%Y
  , [.d2, .lit '/', .bMon, .lit '/', .y2]      -- %d/%b/%y
  , [.d2, .lit '/', .BMon, .lit '/', .y2]      -- %d/%B/%y
  , [.Y4, .lit '-', .bMon, .lit '-', .d2]      -- %Y-%b-%d
  , [.Y4, .ws, .bMon, .ws, .d2]                -- %Y %b %d
  ]

/-- The year choice of parse_ambiguous_date (normalize_contacts.py,
lines 161-177), returning (year, d1, m1, d2, m2). -/
def chooseYearParts (p1 p2 p3 : Nat) : Nat × Nat × Nat × Nat × Nat :=
  if p3 ≥ 1000 ∨ p3 > 31 then (p3, p1, p2, p2, p1)
  else if p1 ≥ 1000 ∨ p1 > 31 then (p1, p2, p3, p3, p2)
  else if p2 ≥ 1000 then (p2, p3, p1, p1, p3)
  else (p3, p1, p2, p2, p1)

/-- parse_ambiguous_date of normalize_contacts.py: returns a datetime. -/
def parse_ambiguous_date (s : List Char) : Option Date :=
  match digitRuns s with
  | p1 :: p2 :: p3 :: _ =>
      let parts := chooseYearParts p1 p2 p3
      let year := pivotYear parts.1
      let d1 := parts.2.1
      let m1 := parts.2.2.1
      let d2 := parts.2.2.2.1
      let m2 := parts.2.2.2.2
      let first :=
        if 1 ≤ d1 ∧ d1 ≤ 31 ∧ 1 ≤ m1 ∧ m1 ≤ 12 then mkDatetime year m1 d1 else none
      match first with
      | some dt => some dt
      | none =>
          if 1 ≤ d2 ∧ d2 ≤ 31 ∧ 1 ≤ m2 ∧ m2 ≤ 12 then mkDatetime year m2 d2 else none
  | _ => none

/-- normalize_date of normalize_contacts.py.  `today` models datetime.now():
dt > datetime.now() iff dt's calendar date is strictly after today. -/
def normalize_date (date_str : String) (today : Date) : Option String :=
  if date_str.data = [] then none
  else
    match tryFormats formats_to_try (trimChars date_str.data) with
    | some dt =>
        if dateLt today (yearAdjusted dt) then none
        else some (strftimeYMD (yearAdjusted dt))
    | none =>
        match parse_ambiguous_date (trimChars date_str.data) with
        | some dt => if dateLt today dt then none else some (strftimeYMD dt)
        | none => none

end NormContacts

/-! ## normalize_contact.py (namespace NormContact) -/

namespace NormContact

/-- The formats_to_try list of src/normalize_contact.py: the 23 formats above
followed by ten purely numeric month-first / day-first formats. -/
def formats_to_try : List (List FTok) :=
  NormContacts.formats_to_try ++
  [ [.m2, .lit '.', .d2, .lit '.', .Y4]        -- %m.%d.%Y
  , [.m2, .lit '/', .d2, .lit '/', .Y4]        -- %m/%d/%Y
  , [.m2, .lit '-', .d2, .lit '-', .Y4]        -- %m-%d-%Y
  , [.m2, .lit '-', .d2, .lit '-', .y2]        -- %m-%d-%y
  , [.m2, .lit '/', .d2, .lit '/', .y2]        -- %m/%d/%y
  , [.d2, .lit '.', .m2, .lit '.', .Y4]        -- %d.%m.%Y
  , [.d2, .lit '/', .m2, .lit '/', .Y4]        -- %d/%m/%Y
  , [.d2, .lit '-', .m2, .lit '-', .Y4]        -- %d-%m-%Y
  , [.d2, .lit '-', .m2, .lit '-', .y2]        -- %d-%m-%y
  , [.d2, .lit '/', .m2, .lit '/', .y2]        -- %d/%m/%y
  ]

/-- The year choice of _parse_ambiguous_date (normalize_contact.py,
lines 160-171): the final branch takes the SECOND number as the year and
pairs (day, month) = (p3, p1) / (p1, p3). -/
def chooseYearParts (p1 p2 p3 : Nat) : Nat × Nat × Nat × Nat × Nat :=
  if p3 > 31 then (p3, p1, p2, p2, p1)
  else if p1 > 31 then (p1, p2, p3, p3, p2)
  else (p2, p3, p1, p1, p3)

/-- _parse_ambiguous_date of normalize_contact.py: returns the formatted
string directly. -/
def parse_ambiguous_date (s : List Char) : Option String :=
  match digitRuns s with
  | p1 :: p2 :: p3 :: _ =>
      let parts := chooseYearParts p1 p2 p3
      let year := pivotYear parts.1
      let d1 := parts.2.1
      let m1 := parts.2.2.1
      let d2 := parts.2.2.2.1
      let m2 := parts.2.2.2.2
      let first :=
        if 1 ≤ d1 ∧ d1 ≤ 31 ∧ 1 ≤ m1 ∧ m1 ≤ 12 then mkDatetime year m1 d1 else none
      match first with
      | some dt => some (strftimeYMD dt)
      | none =>
          if 1 ≤ d2 ∧ d2 ≤ 31 ∧ 1 ≤ m2 ∧ m2 ≤ 12 then
            (mkDatetime year m2 d2).map strftimeYMD
          else none
  | _ => none

/-- normalize_date of normalize_contact.py.  Note: no comparison against
datetime.now() anywhere in this function (lines 132-141). -/
def normalize_date (date_str : String) : Option String :=
  if date_str.data = [] then none
  else
    match tryFormats formats_to_try (trimChars date_str.data) with
    | some dt => some (strftimeYMD (yearAdjusted dt))
    | none => parse_ambiguous_date (trimChars date_str.data)

end NormContact

/-! ## Row normalization and the pipeline (normalize_contacts.py) -/

/-- A CSV row as csv.DictReader yields it: field name / value pairs.  Python
dict semantics: a later binding of the same key overwrites an earlier one. -/
abbrev Row := List (String × String)

/-- dict.get(key, default) where the dict was built from the pairs in order
(last occurrence of a key wins). -/
def dictGet (row : Row) (key dflt : String) : String :=
  (List.lookup key row.reverse).getD dflt

/-- {str(k).lower().strip(): v.strip() for k, v in row.items()} -/
def lowerRow (row : Row) : Row :=
  row.map (fun kv => (trimS (lowerS kv.1), trimS kv.2))

structure Contact where
  id : String
  phone : String
  dob : String
deriving DecidableEq

namespace NormContacts

/-- normalize_row of normalize_contacts.py; raised ValueError is modelled as
Except.error with the exception message. -/
def normalize_row (row : Row) (today : Date) : Except String Contact :=
  let row_lower := lowerRow row
  let contact_id := trimS (dictGet row_lower "id" "")
  let phone := trimS (dictGet row_lower "phone" "")
  let dob := trimS (dictGet row_lower "dob" "")
  if contact_id = "" then .error "Missing id"
  else
    match normalize_phone phone with
    | none => .error ("Invalid phone: " ++ phone)
    | some normalized_phone =>
        match normalize_date dob today with
        | none => .error ("Invalid date of birth: " ++ dob)
        | some normalized_dob => .ok ⟨contact_id, normalized_phone, normalized_dob⟩

/-- The error line format, common to _process_single and worker_pack. -/
def errLine (seq : Nat) (cid e : String) : String :=
  "Row " ++ toString seq ++ " (ID: " ++ cid ++ "): " ++ e

/-- worker_pack: note it reads the id from the RAW row (no key lowering, no
trimming), unlike the error path of _process_single. -/
def worker_pack (today : Date) (args : Nat × Row) :
    Nat × Option Contact × Option String :=
  match normalize_row args.2 today with
  | .ok c => (args.1, some c, none)
  | .error e => (args.1, none, some (errLine args.1 (dictGet args.2 "id" "unknown") e))

structure Stats where
  total : Nat
  normalized : Nat
  skipped : Nat
  errors : List String
deriving DecidableEq

def Stats.empty : Stats := ⟨0, 0, 0, []⟩

/-- One iteration of the row loop of _process_single (lines 327-338). -/
def singleStep (today : Date) (acc : Stats × List Contact) (ir : Nat × Row) :
    Stats × List Contact :=
  let st := acc.1
  match normalize_row ir.2 today with
  | .ok c =>
      (⟨st.total + 1, st.normalized + 1, st.skipped, st.errors⟩, acc.2 ++ [c])
  | .error e =>
      let contact_id := dictGet (lowerRow ir.2) "id" "unknown"
      (⟨st.total + 1, st.normalized, st.skipped + 1,
        st.errors ++ [errLine ir.1 contact_id e]⟩, acc.2)

/-- _process_single on the data rows (sequence numbers start at 2); returns
the final stats and the rows written to the output file, in order. -/
def process_single (rows : List Row) (today : Date) : Stats × List Contact :=
  (List.enumFrom 2 rows).foldl (singleStep today) (Stats.empty, [])

/-! The multiprocessing path.  pool.imap computes worker_pack on every
sequenced row; the writer-side loop folds each received result into the stats,
inserts it into the reorder buffer and flushes every contiguous ready row.
The order in which results arrive is left arbitrary (a permutation of the
worker results) so that the ordering guarantee is proved for every completion
order. -/

abbrev Payload := Option Contact × Option String

def lookupKey {α : Type} (k : Nat) : List (Nat × α) → Option α
  | [] => none
  | kv :: rest => if kv.1 = k then some kv.2 else lookupKey k rest

def popKey {α : Type} (k : Nat) : List (Nat × α) → List (Nat × α)
  | [] => []
  | kv :: rest => if kv.1 = k then rest else kv :: popKey k rest

structure MpState where
  stats : Stats
  buffer : List (Nat × Payload)
  nextToWrite : Nat
  output : List Contact
deriving DecidableEq

/-- The while-loop "while next_to_write in buffer: pop, write if item, += 1".
Each iteration removes one buffer entry, so buffer.length fuel is exact. -/
def drainGo : Nat → List (Nat × Payload) → Nat → List Contact →
    List (Nat × Payload) × Nat × List Contact
  | 0, buf, next, out => (buf, next, out)
  | fuel + 1, buf, next, out =>
      match lookupKey next buf with
      | some pl =>
          let out' := match pl.1 with
            | some c => out ++ [c]
            | none => out
          drainGo fuel (popKey next buf) (next + 1) out'
      | none => (buf, next, out)

/-- Receiving one (seq, normalized, err) result: stats update, buffer insert,
contiguous flush (lines 385-400). -/
def mpStep (st : MpState) (r : Nat × Payload) : MpState :=
  let stats :=
    match r.2.2 with
    | some e =>
        ⟨st.stats.total + 1, st.stats.normalized, st.stats.skipped + 1,
          st.stats.errors ++ [e]⟩
    | none =>
        ⟨st.stats.total + 1, st.stats.normalized + 1, st.stats.skipped,
          st.stats.errors⟩
  let buf := (r.1, r.2) :: st.buffer
  let res := drainGo buf.length buf st.nextToWrite st.output
  ⟨stats, res.1, res.2.1, res.2.2⟩

def DEFAULT_CHUNK_MULTIPLIER : Nat := 4

/-- _process_multiprocess, given the worker results in their arrival order:
fold them through mpStep, then the safety drain.  next_to_write starts at 2.
The chunk size only batches dispatch and does not affect the result. -/
def process_multiprocess (workers : Nat)
    (arrivals : List (Nat × Payload)) : MpState :=
  let _chunk_size := max 256 (workers * DEFAULT_CHUNK_MULTIPLIER * 256)
  let st := arrivals.foldl mpStep ⟨Stats.empty, [], 2, []⟩
  let res := drainGo st.buffer.length st.buffer st.nextToWrite st.output
  ⟨st.stats, res.1, res.2.1, res.2.2⟩

/-- The results pool.imap produces, in input order. -/
def mpResults (rows : List Row) (today : Date) : List (Nat × Payload) :=
  (List.enumFrom 2 rows).map (worker_pack today)

/-- The successfully normalized rows in input order. -/
def successes (rows : List Row) (today : Date) : List Contact :=
  rows.filterMap (fun r =>
    match normalize_row r today with
    | .ok c => some c
    | .error _ => none)

end NormContacts

/-! ## Lemmas about the association-list primitives -/

namespace NormContacts

theorem lookupKey_eq_none_iff {α : Type} (k : Nat) (l : List (Nat × α)) :
    lookupKey k l = none ↔ k ∉ l.map Prod.fst := by
  induction l with
  | nil => simp [lookupKey]
  | cons kv rest ih =>
      by_cases h : kv.1 = k
      · simp [lookupKey, h]
      · simp only [lookupKey, h, if_false, List.map_cons, List.mem_cons, ih]
        constructor
        · intro hn hor
          rcases hor with h1 | h2
          · exact h h1.symm
          · exact hn h2
        · intro hn hm
          exact hn (Or.inr hm)

theorem mem_of_lookupKey_some {α : Type} {k : Nat} {v : α} :
    ∀ {l : List (Nat × α)}, lookupKey k l = some v → (k, v) ∈ l := by
  intro l
  induction l with
  | nil => intro h; simp [lookupKey] at h
  | cons kv rest ih =>
      intro h
      by_cases hk : kv.1 = k
      · simp [lookupKey, hk] at h
        subst hk h
        exact List.mem_cons_self _ _
      · simp [lookupKey, hk] at h
        exact List.mem_cons_of_mem _ (ih h)

theorem lookupKey_of_mem_nodup {α : Type} {k : Nat} {v : α} :
    ∀ {l : List (Nat × α)}, (l.map Prod.fst).Nodup → (k, v) ∈ l →
      lookupKey k l = some v := by
  intro l
  induction l with
  | nil => intro _ h; simp at h
  | cons kv rest ih =>
      intro hnd hm
      rcases List.mem_cons.mp hm with h | h
      · subst h; simp [lookupKey]
      · have hk : kv.1 ≠ k := by
          intro hkk
          have : k ∈ rest.map Prod.fst :=
            List.mem_map.mpr ⟨(k, v), h, rfl⟩
          rw [List.map_cons, hkk] at hnd
          exact (List.nodup_cons.mp hnd).1 this
        have hnd' : (rest.map Prod.fst).Nodup := by
          rw [List.map_cons] at hnd
          exact (List.nodup_cons.mp hnd).2
        simp [lookupKey, hk, ih hnd' h]

theorem lookupKey_perm {α : Type} {l1 l2 : List (Nat × α)} (hp : l1.Perm l2)
    (hnd : (l1.map Prod.fst).Nodup) (k : Nat) :
    lookupKey k l1 = lookupKey k l2 := by
  have hnd2 : (l2.map Prod.fst).Nodup := ((hp.map Prod.fst).nodup_iff).mp hnd
  cases h2 : lookupKey k l2 with
  | some v =>
      exact lookupKey_of_mem_nodup hnd (hp.mem_iff.mpr (mem_of_lookupKey_some h2))
  | none =>
      rw [lookupKey_eq_none_iff] at h2 ⊢
      exact fun hm => h2 (((hp.map Prod.fst).mem_iff).mp hm)

theorem popKey_sublist {α : Type} (k : Nat) :
    ∀ (l : List (Nat × α)), (popKey k l).Sublist l := by
  intro l
  induction l with
  | nil => simp [popKey]
  | cons kv rest ih =>
      by_cases h : kv.1 = k
      · rw [popKey, if_pos h]
        exact List.sublist_cons_self kv rest
      · rw [popKey, if_neg h]
        exact List.Sublist.cons₂ kv ih

theorem popKey_length_lt {α : Type} {k : Nat} {v : α} :
    ∀ {l : List (Nat × α)}, lookupKey k l = some v →
      (popKey k l).length < l.length := by
  intro l
  induction l with
  | nil => intro h; simp [lookupKey] at h
  | cons kv rest ih =>
      intro h
      by_cases hk : kv.1 = k
      · simp [popKey, hk]
      · simp only [lookupKey, hk, if_false] at h
        simpa [popKey, hk] using Nat.succ_lt_succ (ih h)

theorem lookupKey_popKey_self {α : Type} {k : Nat} :
    ∀ {l : List (Nat × α)}, (l.map Prod.fst).Nodup →
      lookupKey k (popKey k l) = none := by
  intro l
  induction l with
  | nil => intro _; simp [popKey, lookupKey]
  | cons kv rest ih =>
      intro hnd
      rw [List.map_cons, List.nodup_cons] at hnd
      by_cases hk : kv.1 = k
      · subst hk
        rw [lookupKey_eq_none_iff]
        simpa [popKey] using hnd.1
      · simp [popKey, lookupKey, hk, ih hnd.2]

theorem lookupKey_popKey_ne {α : Type} {j k : Nat} (hjk : j ≠ k) :
    ∀ (l : List (Nat × α)), lookupKey j (popKey k l) = lookupKey j l := by
  have hkj : ¬ (k = j) := fun h => hjk h.symm
  intro l
  induction l with
  | nil => simp [popKey]
  | cons kv rest ih =>
      by_cases hk : kv.1 = k
      · simp [popKey, lookupKey, hk, hkj]
      · simp [popKey, lookupKey, hk, ih]

theorem lookupKey_append_some {α : Type} {k : Nat} {v : α}
    {l1 : List (Nat × α)} (l2 : List (Nat × α)) (h : lookupKey k l1 = some v) :
    lookupKey k (l1 ++ l2) = some v := by
  induction l1 with
  | nil => simp [lookupKey] at h
  | cons kv rest ih =>
      by_cases hk : kv.1 = k
      · simp [lookupKey, hk] at h ⊢; exact h
      · simp only [lookupKey, hk, if_false] at h
        simpa [lookupKey, hk] using ih h

theorem lookupKey_append_none {α : Type} {k : Nat}
    {l1 : List (Nat × α)} (l2 : List (Nat × α)) (h : lookupKey k l1 = none) :
    lookupKey k (l1 ++ l2) = lookupKey k l2 := by
  induction l1 with
  | nil => simp
  | cons kv rest ih =>
      by_cases hk : kv.1 = k
      · simp [lookupKey, hk] at h
      · simp only [lookupKey, hk, if_false] at h
        simpa [lookupKey, hk] using ih h

theorem lookupKey_enumFrom {α : Type} :
    ∀ (PL : List α) (n k : Nat),
      lookupKey k (List.enumFrom n PL) =
        if n ≤ k then PL.get? (k - n) else none := by
  intro PL
  induction PL with
  | nil => intro n k; simp [lookupKey]
  | cons a rest ih =>
      intro n k
      by_cases hk : n = k
      · subst hk
        simp [List.enumFrom, lookupKey]
      · have h2 := ih (n + 1) k
        by_cases hle : n ≤ k
        · have hlt : n < k := Nat.lt_of_le_of_ne hle hk
          have : k - n = (k - (n + 1)) + 1 := by omega
          simp only [List.enumFrom, lookupKey, hk, if_false, h2, hle, if_true,
            Nat.succ_le_iff.mpr hlt, if_true, this, List.get?]
        · have : ¬ n + 1 ≤ k := by omega
          simp [List.enumFrom, lookupKey, hk, h2, hle, this]

theorem enumFrom_keys_nodup {α : Type} (n : Nat) (PL : List α) :
    ((List.enumFrom n PL).map Prod.fst).Nodup := by
  rw [List.enumFrom_map_fst]
  exact List.nodup_range' n PL.length

end NormContacts

/-! ## The reorder-buffer invariant -/

namespace NormContacts

/-- What the writer must have written once every sequence number
below `next` has been flushed: the successful contacts among the first
next - 2 payloads, in sequence order. -/
def flushed (PL : List Payload) (next : Nat) : List Contact :=
  (PL.take (next - 2)).filterMap (fun pl => pl.1)

theorem flushed_succ (PL : List Payload) (next : Nat) (pl : Payload)
    (h2 : 2 ≤ next) (h : PL.get? (next - 2) = some pl) :
    flushed PL (next + 1) = flushed PL next ++ pl.1.toList := by
  have hidx : next + 1 - 2 = (next - 2) + 1 := by omega
  rw [flushed, flushed, hidx, List.take_succ, List.filterMap_append]
  rw [List.get?_eq_getElem? PL (next - 2)] at h
  rw [h]
  cases hpl : pl.1 <;> simp [hpl]

theorem drainGo_spec (PL : List Payload) (S : List (Nat × Payload))
    (hS : ∀ k v, lookupKey k S = some v → 2 ≤ k ∧ PL.get? (k - 2) = some v) :
    ∀ (fuel : Nat) (buf : List (Nat × Payload)) (next : Nat) (out : List Contact),
      buf.length ≤ fuel →
      (buf.map Prod.fst).Nodup →
      (∀ k v, lookupKey k buf = some v ↔ (lookupKey k S = some v ∧ next ≤ k)) →
      out = flushed PL next →
      2 ≤ next →
      (((drainGo fuel buf next out).1.map Prod.fst).Nodup ∧
       (∀ k v, lookupKey k (drainGo fuel buf next out).1 = some v ↔
          (lookupKey k S = some v ∧ (drainGo fuel buf next out).2.1 ≤ k))) ∧
      (drainGo fuel buf next out).2.2 = flushed PL (drainGo fuel buf next out).2.1 ∧
      next ≤ (drainGo fuel buf next out).2.1 ∧
      lookupKey (drainGo fuel buf next out).2.1 (drainGo fuel buf next out).1 = none ∧
      (∀ j, next ≤ j → j < (drainGo fuel buf next out).2.1 →
         ∃ v, lookupKey j S = some v) ∧
      2 ≤ (drainGo fuel buf next out).2.1 := by
  intro fuel
  induction fuel with
  | zero =>
      intro buf next out hlen hnd hchar hout h2
      have hbuf : buf = [] := List.eq_nil_of_length_eq_zero (Nat.le_zero.mp hlen)
      subst hbuf
      simp only [drainGo]
      refine ⟨⟨hnd, hchar⟩, hout, Nat.le_refl _, rfl, ?_, h2⟩
      intro j hj1 hj2
      omega
  | succ fuel ih =>
      intro buf next out hlen hnd hchar hout h2
      cases hl : lookupKey next buf with
      | none =>
          simp only [drainGo, hl]
          refine ⟨⟨hnd, hchar⟩, hout, Nat.le_refl _, trivial, ?_, h2⟩
          intro j hj1 hj2
          omega
      | some pl =>
          have hstep :
              drainGo (fuel + 1) buf next out =
                drainGo fuel (popKey next buf) (next + 1)
                  (match pl.1 with
                   | some c => out ++ [c]
                   | none => out) := by
            simp only [drainGo, hl]
          have hSnext : lookupKey next S = some pl := ((hchar next pl).mp hl).1
          have hget : PL.get? (next - 2) = some pl := (hS next pl hSnext).2
          have hlen' : (popKey next buf).length ≤ fuel := by
            have := popKey_length_lt hl
            omega
          have hnd' : ((popKey next buf).map Prod.fst).Nodup :=
            hnd.sublist ((popKey_sublist next buf).map Prod.fst)
          have hchar' : ∀ k v, lookupKey k (popKey next buf) = some v ↔
              (lookupKey k S = some v ∧ next + 1 ≤ k) := by
            intro k v
            by_cases hk : k = next
            · subst hk
              rw [lookupKey_popKey_self hnd]
              constructor
              · intro h; cases h
              · intro h; omega
            · rw [lookupKey_popKey_ne hk buf, hchar k v]
              constructor
              · intro h; exact ⟨h.1, by omega⟩
              · intro h; exact ⟨h.1, by omega⟩
          have hout' :
              (match pl.1 with
               | some c => out ++ [c]
               | none => out) = flushed PL (next + 1) := by
            rw [flushed_succ PL next pl h2 hget, ← hout]
            cases hpl : pl.1 <;> simp [hpl, Option.toList]
          have h2' : 2 ≤ next + 1 := by omega
          have := ih (popKey next buf) (next + 1)
            (match pl.1 with
             | some c => out ++ [c]
             | none => out) hlen' hnd' hchar' hout' h2'
          rw [hstep]
          rcases this with ⟨hA, hB, hC, hD, hE, hF⟩
          refine ⟨hA, hB, by omega, hD, ?_, hF⟩
          intro j hj1 hj2
          by_cases hj : j = next
          · subst hj; exact ⟨pl, hSnext⟩
          · exact hE j (by omega) hj2

end NormContacts

namespace NormContacts

/-- The writer-side invariant: after the outcomes in `done` have been
received, everything below nextToWrite has arrived and been flushed (in
order), and the buffer holds exactly the received outcomes at or above
nextToWrite. -/
def MpInv (PL : List Payload) (done : List (Nat × Payload)) (st : MpState) : Prop :=
  2 ≤ st.nextToWrite ∧
  (st.buffer.map Prod.fst).Nodup ∧
  (∀ k v, lookupKey k st.buffer = some v ↔
     (lookupKey k done = some v ∧ st.nextToWrite ≤ k)) ∧
  (∀ k, 2 ≤ k → k < st.nextToWrite → ∃ v, lookupKey k done = some v) ∧
  st.output = flushed PL st.nextToWrite

theorem mpStep_buffer (st : MpState) (r : Nat × Payload) :
    (mpStep st r).buffer =
      (drainGo ((r.1, r.2) :: st.buffer).length ((r.1, r.2) :: st.buffer)
        st.nextToWrite st.output).1 := rfl

theorem mpStep_next (st : MpState) (r : Nat × Payload) :
    (mpStep st r).nextToWrite =
      (drainGo ((r.1, r.2) :: st.buffer).length ((r.1, r.2) :: st.buffer)
        st.nextToWrite st.output).2.1 := rfl

theorem mpStep_output (st : MpState) (r : Nat × Payload) :
    (mpStep st r).output =
      (drainGo ((r.1, r.2) :: st.buffer).length ((r.1, r.2) :: st.buffer)
        st.nextToWrite st.output).2.2 := rfl

theorem lookup_enum_fact (PL : List Payload) {l : List (Nat × Payload)}
    (hsub : l ⊆ List.enumFrom 2 PL) :
    ∀ k v, lookupKey k l = some v → 2 ≤ k ∧ PL.get? (k - 2) = some v := by
  intro k v hkv
  have hmem : (k, v) ∈ List.enumFrom 2 PL := hsub (mem_of_lookupKey_some hkv)
  have hl : lookupKey k (List.enumFrom 2 PL) = some v :=
    lookupKey_of_mem_nodup (enumFrom_keys_nodup 2 PL) hmem
  rw [lookupKey_enumFrom] at hl
  by_cases hle : 2 ≤ k
  · rw [if_pos hle] at hl
    exact ⟨hle, hl⟩
  · rw [if_neg hle] at hl
    cases hl

theorem mpStep_inv (PL : List Payload) (done todo : List (Nat × Payload))
    (st : MpState) (r : Nat × Payload)
    (hperm : (done ++ r :: todo).Perm (List.enumFrom 2 PL))
    (hinv : MpInv PL done st) :
    MpInv PL (done ++ [r]) (mpStep st r) := by
  obtain ⟨h2, hnd, hchar, hB, hout⟩ := hinv
  have hkeysnd : ((done ++ r :: todo).map Prod.fst).Nodup :=
    ((hperm.map Prod.fst).nodup_iff).mpr (enumFrom_keys_nodup 2 PL)
  have hrfact : 2 ≤ r.1 ∧ PL.get? (r.1 - 2) = some r.2 := by
    refine lookup_enum_fact PL hperm.subset r.1 r.2 ?_
    have hrm : (r.1, r.2) ∈ done ++ r :: todo := by
      simp
    have hnd' : ((done ++ r :: todo).map Prod.fst).Nodup := hkeysnd
    exact lookupKey_of_mem_nodup hnd' hrm
  have hknotdone : r.1 ∉ done.map Prod.fst := by
    rw [List.map_append, List.map_cons] at hkeysnd
    have hmid := List.nodup_middle.mp hkeysnd
    have hne := (List.nodup_cons.mp hmid).1
    intro hmem
    exact hne (List.mem_append.mpr (Or.inl hmem))
  have hdnone : lookupKey r.1 done = none :=
    (lookupKey_eq_none_iff _ _).mpr hknotdone
  have hlookupr : lookupKey r.1 (done ++ [r]) = some r.2 := by
    rw [lookupKey_append_none _ hdnone]
    simp [lookupKey]
  have hdone_eq : ∀ j, r.1 ≠ j → lookupKey j (done ++ [r]) = lookupKey j done := by
    intro j hj
    cases hd : lookupKey j done with
    | some w => rw [lookupKey_append_some _ hd]
    | none =>
        rw [lookupKey_append_none _ hd]
        simp [lookupKey, hj]
  have hnext_le : st.nextToWrite ≤ r.1 := by
    by_contra hlt
    push_neg at hlt
    obtain ⟨v', hv'⟩ := hB r.1 hrfact.1 hlt
    rw [hdnone] at hv'
    cases hv'
  have hbufnone : lookupKey r.1 st.buffer = none := by
    cases hbuf : lookupKey r.1 st.buffer with
    | none => rfl
    | some w =>
        have := ((hchar r.1 w).mp hbuf).1
        rw [hdnone] at this
        cases this
  have hnd1 : (((r.1, r.2) :: st.buffer).map Prod.fst).Nodup := by
    rw [List.map_cons, List.nodup_cons]
    exact ⟨(lookupKey_eq_none_iff _ _).mp hbufnone, hnd⟩
  have hchar1 : ∀ j v, lookupKey j ((r.1, r.2) :: st.buffer) = some v ↔
      (lookupKey j (done ++ [r]) = some v ∧ st.nextToWrite ≤ j) := by
    intro j v
    by_cases hj : r.1 = j
    · subst hj
      simp only [lookupKey, if_pos rfl]
      constructor
      · intro hv
        cases hv
        exact ⟨hlookupr, hnext_le⟩
      · intro hv
        rw [hlookupr] at hv
        cases hv.1
        rfl
    · have hskip : lookupKey j ((r.1, r.2) :: st.buffer) = lookupKey j st.buffer := by
        simp [lookupKey, hj]
      rw [hskip, hchar j v, hdone_eq j hj]
  have hSsub : ∀ k v, lookupKey k (done ++ [r]) = some v →
      2 ≤ k ∧ PL.get? (k - 2) = some v := by
    refine lookup_enum_fact PL ?_
    intro x hx
    rcases List.mem_append.mp hx with hx1 | hx1
    · exact hperm.subset (List.mem_append.mpr (Or.inl hx1))
    · have : x = r := by simpa using hx1
      subst this
      exact hperm.subset (List.mem_append.mpr (Or.inr (List.mem_cons_self _ _)))
  have hspec := drainGo_spec PL (done ++ [r]) hSsub
    ((r.1, r.2) :: st.buffer).length ((r.1, r.2) :: st.buffer)
    st.nextToWrite st.output (Nat.le_refl _) hnd1 hchar1 hout h2
  obtain ⟨⟨hnd'', hchar''⟩, hout'', hle'', _hnone'', hprog'', h2''⟩ := hspec
  refine ⟨?_, ?_, ?_, ?_, ?_⟩
  · rw [mpStep_next]; exact h2''
  · rw [mpStep_buffer]; exact hnd''
  · intro k v
    rw [mpStep_buffer, mpStep_next]
    exact hchar'' k v
  · intro k hk1 hk2
    rw [mpStep_next] at hk2
    by_cases hk : k < st.nextToWrite
    · obtain ⟨v, hv⟩ := hB k hk1 hk
      exact ⟨v, lookupKey_append_some _ hv⟩
    · push_neg at hk
      exact hprog'' k hk hk2
  · rw [mpStep_output, mpStep_next]
    exact hout''

theorem foldl_mp_inv (PL : List Payload) :
    ∀ (todo done : List (Nat × Payload)) (st : MpState),
      (done ++ todo).Perm (List.enumFrom 2 PL) →
      MpInv PL done st →
      MpInv PL (done ++ todo) (todo.foldl mpStep st) := by
  intro todo
  induction todo with
  | nil =>
      intro done st hperm hinv
      simpa using hinv
  | cons r todo ih =>
      intro done st hperm hinv
      have hassoc : (done ++ [r]) ++ todo = done ++ r :: todo := by simp
      have hstep := mpStep_inv PL done todo st r hperm hinv
      have hres := ih (done ++ [r]) (mpStep st r)
        (by rw [hassoc]; exact hperm) hstep
      rw [hassoc] at hres
      exact hres

end NormContacts

namespace NormContacts

theorem process_mp_output_def (W : Nat) (arr : List (Nat × Payload)) :
    (process_multiprocess W arr).output =
      (drainGo (arr.foldl mpStep ⟨Stats.empty, [], 2, []⟩).buffer.length
        (arr.foldl mpStep ⟨Stats.empty, [], 2, []⟩).buffer
        (arr.foldl mpStep ⟨Stats.empty, [], 2, []⟩).nextToWrite
        (arr.foldl mpStep ⟨Stats.empty, [], 2, []⟩).output).2.2 := rfl

theorem process_mp_stats_def (W : Nat) (arr : List (Nat × Payload)) :
    (process_multiprocess W arr).stats =
      (arr.foldl mpStep ⟨Stats.empty, [], 2, []⟩).stats := rfl

/-- The central ordering theorem: for every arrival order of the worker
results (any permutation of the sequenced payload list), the multiprocessing
writer emits exactly the successful payloads in sequence order. -/
theorem process_mp_output (PL : List Payload) (arr : List (Nat × Payload))
    (hperm : arr.Perm (List.enumFrom 2 PL)) (W : Nat) :
    (process_multiprocess W arr).output = PL.filterMap (fun pl => pl.1) := by
  have hinv0 : MpInv PL [] ⟨Stats.empty, [], 2, []⟩ := by
    refine ⟨Nat.le_refl 2, List.nodup_nil, ?_, ?_, ?_⟩
    · intro k v
      constructor
      · intro h; cases h
      · intro h; cases h.1
    · intro k h1 h2
      have h2' : k < 2 := h2
      omega
    · simp [flushed]
  have hfold := foldl_mp_inv PL arr [] ⟨Stats.empty, [], 2, []⟩ (by simpa using hperm) hinv0
  rw [List.nil_append] at hfold
  obtain ⟨h2, hnd, hchar, hB, hout⟩ := hfold
  have harrnd : (arr.map Prod.fst).Nodup :=
    ((hperm.map Prod.fst).nodup_iff).mpr (enumFrom_keys_nodup 2 PL)
  have harr_enum : ∀ k, lookupKey k arr = lookupKey k (List.enumFrom 2 PL) :=
    fun k => lookupKey_perm hperm harrnd k
  have hS : ∀ k v, lookupKey k arr = some v → 2 ≤ k ∧ PL.get? (k - 2) = some v :=
    lookup_enum_fact PL hperm.subset
  have hspec := drainGo_spec PL arr hS
    (arr.foldl mpStep ⟨Stats.empty, [], 2, []⟩).buffer.length
    (arr.foldl mpStep ⟨Stats.empty, [], 2, []⟩).buffer
    (arr.foldl mpStep ⟨Stats.empty, [], 2, []⟩).nextToWrite
    (arr.foldl mpStep ⟨Stats.empty, [], 2, []⟩).output
    (Nat.le_refl _) hnd hchar hout h2
  obtain ⟨⟨_hnd'', hchar''⟩, hout'', hle'', hnone'', hprog'', h2''⟩ := hspec
  rw [process_mp_output_def, hout'']
  have hBall : ∀ j, 2 ≤ j →
      j < (drainGo (arr.foldl mpStep ⟨Stats.empty, [], 2, []⟩).buffer.length
        (arr.foldl mpStep ⟨Stats.empty, [], 2, []⟩).buffer
        (arr.foldl mpStep ⟨Stats.empty, [], 2, []⟩).nextToWrite
        (arr.foldl mpStep ⟨Stats.empty, [], 2, []⟩).output).2.1 →
      ∃ v, lookupKey j arr = some v := by
    intro j hj1 hj2
    by_cases hj : j < (arr.foldl mpStep ⟨Stats.empty, [], 2, []⟩).nextToWrite
    · exact hB j hj1 hj
    · push_neg at hj
      exact hprog'' j hj hj2
  have hle2 : (drainGo (arr.foldl mpStep ⟨Stats.empty, [], 2, []⟩).buffer.length
      (arr.foldl mpStep ⟨Stats.empty, [], 2, []⟩).buffer
      (arr.foldl mpStep ⟨Stats.empty, [], 2, []⟩).nextToWrite
      (arr.foldl mpStep ⟨Stats.empty, [], 2, []⟩).output).2.1 ≤ 2 + PL.length := by
    by_contra hgt
    push_neg at hgt
    obtain ⟨v, hv⟩ := hBall (2 + PL.length) (by omega) (by omega)
    rw [harr_enum, lookupKey_enumFrom] at hv
    rw [if_pos (by omega)] at hv
    have : PL.get? (2 + PL.length - 2) = none := by
      rw [List.get?_eq_none]
      omega
    rw [this] at hv
    cases hv
  have hge2 : 2 + PL.length ≤
      (drainGo (arr.foldl mpStep ⟨Stats.empty, [], 2, []⟩).buffer.length
        (arr.foldl mpStep ⟨Stats.empty, [], 2, []⟩).buffer
        (arr.foldl mpStep ⟨Stats.empty, [], 2, []⟩).nextToWrite
        (arr.foldl mpStep ⟨Stats.empty, [], 2, []⟩).output).2.1 := by
    set nxt := (drainGo (arr.foldl mpStep ⟨Stats.empty, [], 2, []⟩).buffer.length
      (arr.foldl mpStep ⟨Stats.empty, [], 2, []⟩).buffer
      (arr.foldl mpStep ⟨Stats.empty, [], 2, []⟩).nextToWrite
      (arr.foldl mpStep ⟨Stats.empty, [], 2, []⟩).output).2.1 with hnxt
    by_contra hlt
    push_neg at hlt
    have hidx : nxt - 2 < PL.length := by omega
    have hsome : ∃ pl, PL.get? (nxt - 2) = some pl := by
      cases hq : PL.get? (nxt - 2) with
      | some pl => exact ⟨pl, rfl⟩
      | none =>
          rw [List.get?_eq_none] at hq
          omega
    obtain ⟨pl, hpl⟩ := hsome
    have henum : lookupKey nxt (List.enumFrom 2 PL) = some pl := by
      rw [lookupKey_enumFrom, if_pos h2'']
      exact hpl
    have harr : lookupKey nxt arr = some pl := by
      rw [harr_enum]
      exact henum
    have hbuf : lookupKey nxt
        (drainGo (arr.foldl mpStep ⟨Stats.empty, [], 2, []⟩).buffer.length
          (arr.foldl mpStep ⟨Stats.empty, [], 2, []⟩).buffer
          (arr.foldl mpStep ⟨Stats.empty, [], 2, []⟩).nextToWrite
          (arr.foldl mpStep ⟨Stats.empty, [], 2, []⟩).output).1 = some pl :=
      (hchar'' nxt pl).mpr ⟨harr, Nat.le_refl _⟩
    rw [hnone''] at hbuf
    cases hbuf
  have hnxt_eq : (drainGo (arr.foldl mpStep ⟨Stats.empty, [], 2, []⟩).buffer.length
      (arr.foldl mpStep ⟨Stats.empty, [], 2, []⟩).buffer
      (arr.foldl mpStep ⟨Stats.empty, [], 2, []⟩).nextToWrite
      (arr.foldl mpStep ⟨Stats.empty, [], 2, []⟩).output).2.1 = 2 + PL.length :=
    Nat.le_antisymm hle2 hge2
  rw [hnxt_eq, flushed]
  have : 2 + PL.length - 2 = PL.length := by omega
  rw [this, List.take_length PL]

end NormContacts

namespace NormContacts

theorem worker_pack_keyed (today : Date) :
    ∀ (rows : List Row) (n : Nat),
      (List.enumFrom n rows).map (worker_pack today) =
        List.enumFrom n
          ((List.enumFrom n rows).map (fun ir => (worker_pack today ir).2)) := by
  intro rows
  induction rows with
  | nil => intro n; rfl
  | cons r rows ih =>
      intro n
      simp only [List.enumFrom, List.map_cons]
      congr 1
      · unfold worker_pack
        cases normalize_row r today <;> rfl
      · exact ih (n + 1)

theorem worker_pack_success (today : Date) (ir : Nat × Row) :
    (worker_pack today ir).2.1 =
      (match normalize_row ir.2 today with
       | .ok c => some c
       | .error _ => none) := by
  unfold worker_pack
  cases normalize_row ir.2 today <;> rfl

theorem worker_pack_error (today : Date) (ir : Nat × Row) :
    (worker_pack today ir).2.2 =
      (match normalize_row ir.2 today with
       | .ok _ => none
       | .error e => some (errLine ir.1 (dictGet ir.2 "id" "unknown") e)) := by
  unfold worker_pack
  cases normalize_row ir.2 today <;> rfl

theorem enumFrom_filterMap_snd {α β : Type} (h : α → Option β) :
    ∀ (l : List α) (n : Nat),
      (List.enumFrom n l).filterMap (fun p => h p.2) = l.filterMap h := by
  intro l
  induction l with
  | nil => intro n; rfl
  | cons a l ih =>
      intro n
      simp only [List.enumFrom, List.filterMap_cons]
      cases h a <;> simp [ih (n + 1)]

/-- The payloads, in sequence order, that the workers hand back. -/
def mpPayloads (rows : List Row) (today : Date) : List Payload :=
  (List.enumFrom 2 rows).map (fun ir => (worker_pack today ir).2)

theorem mpResults_eq_enum (rows : List Row) (today : Date) :
    mpResults rows today = List.enumFrom 2 (mpPayloads rows today) :=
  worker_pack_keyed today rows 2

/-- The success component of one row's outcome. -/
def succOf (today : Date) (r : Row) : Option Contact :=
  match normalize_row r today with
  | .ok c => some c
  | .error _ => none

theorem successes_eq_filterMap (rows : List Row) (today : Date) :
    successes rows today = rows.filterMap (succOf today) := rfl

theorem mpPayloads_successes (rows : List Row) (today : Date) :
    (mpPayloads rows today).filterMap (fun pl => pl.1) = successes rows today := by
  unfold mpPayloads
  rw [List.filterMap_map]
  have hcomp : ((fun pl : Payload => pl.1) ∘ fun ir => (worker_pack today ir).2) =
      fun ir : Nat × Row => succOf today ir.2 := by
    funext ir
    exact worker_pack_success today ir
  rw [hcomp, enumFrom_filterMap_snd (succOf today) rows 2,
    successes_eq_filterMap]

/-! Single-threaded fold lemmas -/

theorem single_fold_out (today : Date) :
    ∀ (rows : List Row) (n : Nat) (st : Stats) (out : List Contact),
      ((List.enumFrom n rows).foldl (singleStep today) (st, out)).2 =
        out ++ successes rows today := by
  intro rows
  induction rows with
  | nil => intro n st out; simp [successes]
  | cons r rows ih =>
      intro n st out
      simp only [List.enumFrom, List.foldl_cons]
      cases hr : normalize_row r today with
      | ok c =>
          simp only [singleStep, hr]
          rw [ih (n + 1)]
          simp [successes, List.filterMap_cons, hr]
      | error e =>
          simp only [singleStep, hr]
          rw [ih (n + 1)]
          simp [successes, List.filterMap_cons, hr]

def errOfSingle (today : Date) (ir : Nat × Row) : Option String :=
  match normalize_row ir.2 today with
  | .ok _ => none
  | .error e => some (errLine ir.1 (dictGet (lowerRow ir.2) "id" "unknown") e)

theorem single_fold_errors (today : Date) :
    ∀ (rows : List Row) (n : Nat) (st : Stats) (out : List Contact),
      ((List.enumFrom n rows).foldl (singleStep today) (st, out)).1.errors =
        st.errors ++ (List.enumFrom n rows).filterMap (errOfSingle today) := by
  intro rows
  induction rows with
  | nil => intro n st out; simp
  | cons r rows ih =>
      intro n st out
      simp only [List.enumFrom, List.foldl_cons, List.filterMap_cons]
      cases hr : normalize_row r today with
      | ok c =>
          simp only [singleStep, hr, errOfSingle]
          rw [ih (n + 1)]
      | error e =>
          simp only [singleStep, hr, errOfSingle]
          rw [ih (n + 1)]
          simp

theorem single_fold_total (today : Date) :
    ∀ (rows : List Row) (n : Nat) (st : Stats) (out : List Contact),
      ((List.enumFrom n rows).foldl (singleStep today) (st, out)).1.total =
        st.total + rows.length := by
  intro rows
  induction rows with
  | nil => intro n st out; simp
  | cons r rows ih =>
      intro n st out
      simp only [List.enumFrom, List.foldl_cons]
      cases hr : normalize_row r today with
      | ok c =>
          simp only [singleStep, hr]
          rw [ih (n + 1)]
          simp [List.length_cons]
          omega
      | error e =>
          simp only [singleStep, hr]
          rw [ih (n + 1)]
          simp [List.length_cons]
          omega

theorem single_fold_norm_skip (today : Date) :
    ∀ (rows : List Row) (n : Nat) (st : Stats) (out : List Contact),
      ((List.enumFrom n rows).foldl (singleStep today) (st, out)).1.normalized +
          ((List.enumFrom n rows).foldl (singleStep today) (st, out)).1.skipped =
        st.normalized + st.skipped + rows.length := by
  intro rows
  induction rows with
  | nil => intro n st out; simp
  | cons r rows ih =>
      intro n st out
      simp only [List.enumFrom, List.foldl_cons]
      cases hr : normalize_row r today with
      | ok c =>
          simp only [singleStep, hr]
          rw [ih (n + 1)]
          simp [List.length_cons]
          omega
      | error e =>
          simp only [singleStep, hr]
          rw [ih (n + 1)]
          simp [List.length_cons]
          omega

theorem single_fold_errskip (today : Date) :
    ∀ (rows : List Row) (n : Nat) (st : Stats) (out : List Contact),
      ((List.enumFrom n rows).foldl (singleStep today) (st, out)).1.errors.length +
          st.skipped =
        ((List.enumFrom n rows).foldl (singleStep today) (st, out)).1.skipped +
          st.errors.length := by
  intro rows
  induction rows with
  | nil => intro n st out; simp; omega
  | cons r rows ih =>
      intro n st out
      simp only [List.enumFrom, List.foldl_cons]
      cases hr : normalize_row r today with
      | ok c =>
          simp only [singleStep, hr]
          have := ih (n + 1)
            ⟨st.total + 1, st.normalized + 1, st.skipped, st.errors⟩ (out ++ [c])
          simpa using this
      | error e =>
          simp only [singleStep, hr]
          have := ih (n + 1)
            ⟨st.total + 1, st.normalized, st.skipped + 1,
              st.errors ++ [errLine n (dictGet (lowerRow r) "id" "unknown") e]⟩ out
          simp only [List.length_append, List.length_singleton] at this
          omega

/-! Multiprocessing stats fold lemmas (the drain never touches the stats) -/

theorem mpStep_stats_total (st : MpState) (r : Nat × Payload) :
    (mpStep st r).stats.total = st.stats.total + 1 := by
  cases hr : r.2.2 <;> simp [mpStep, hr]

theorem mpStep_stats_ns (st : MpState) (r : Nat × Payload) :
    (mpStep st r).stats.normalized + (mpStep st r).stats.skipped =
      st.stats.normalized + st.stats.skipped + 1 := by
  cases hr : r.2.2 <;> (simp [mpStep, hr]; omega)

theorem mpStep_stats_errors (st : MpState) (r : Nat × Payload) :
    (mpStep st r).stats.errors = st.stats.errors ++ (r.2.2).toList := by
  cases hr : r.2.2 <;> simp [mpStep, hr]

theorem mpStep_stats_skipped (st : MpState) (r : Nat × Payload) :
    (mpStep st r).stats.skipped = st.stats.skipped + (r.2.2).toList.length := by
  cases hr : r.2.2 <;> simp [mpStep, hr]

theorem mp_fold_total :
    ∀ (arr : List (Nat × Payload)) (st : MpState),
      (arr.foldl mpStep st).stats.total = st.stats.total + arr.length := by
  intro arr
  induction arr with
  | nil => intro st; simp
  | cons r arr ih =>
      intro st
      simp only [List.foldl_cons]
      rw [ih (mpStep st r), mpStep_stats_total]
      simp [List.length_cons]
      omega

theorem mp_fold_ns :
    ∀ (arr : List (Nat × Payload)) (st : MpState),
      (arr.foldl mpStep st).stats.normalized + (arr.foldl mpStep st).stats.skipped =
        st.stats.normalized + st.stats.skipped + arr.length := by
  intro arr
  induction arr with
  | nil => intro st; simp
  | cons r arr ih =>
      intro st
      simp only [List.foldl_cons]
      rw [ih (mpStep st r)]
      have := mpStep_stats_ns st r
      simp [List.length_cons]
      omega

theorem mp_fold_errors :
    ∀ (arr : List (Nat × Payload)) (st : MpState),
      (arr.foldl mpStep st).stats.errors =
        st.stats.errors ++ arr.filterMap (fun r => r.2.2) := by
  intro arr
  induction arr with
  | nil => intro st; simp
  | cons r arr ih =>
      intro st
      simp only [List.foldl_cons, List.filterMap_cons]
      rw [ih (mpStep st r), mpStep_stats_errors]
      cases hr : r.2.2 <;> simp [hr]

theorem mp_fold_skipped :
    ∀ (arr : List (Nat × Payload)) (st : MpState),
      (arr.foldl mpStep st).stats.skipped =
        st.stats.skipped + (arr.filterMap (fun r => r.2.2)).length := by
  intro arr
  induction arr with
  | nil => intro st; simp
  | cons r arr ih =>
      intro st
      simp only [List.foldl_cons, List.filterMap_cons]
      rw [ih (mpStep st r), mpStep_stats_skipped]
      cases hr : r.2.2 <;> simp [hr] <;> omega

end NormContacts

/-! ## Concrete evaluation lemmas for the end-to-end test input -/

def c2Rows : List Row :=
  [ [("id", "A1"), ("phone", "0501234567"), ("dob", "01/02/1990")]
  , [("id", "A2"), ("phone", "+1(415)-555-2671"), ("dob", "Feb 1 1990")]
  , [("id", "A3"), ("phone", ""), ("dob", "01/02/1990")]
  , [("id", ""), ("phone", "0501234567"), ("dob", "01/02/1990")]
  , [("id", "A4"), ("phone", "0501234567"), ("dob", "")] ]

theorem nd_amb_19900201 (today : Date) (h : dateLt today ⟨1990, 2, 1⟩ = false) :
    NormContacts.normalize_date "01/02/1990" today = some "1990-02-01" := by
  have h0 : NormContacts.normalize_date "01/02/1990" today =
      if dateLt today ⟨1990, 2, 1⟩ then none else some "1990-02-01" := rfl
  rw [h0, h]
  rfl

theorem nd_feb1 (today : Date) (h : dateLt today ⟨1990, 2, 1⟩ = false) :
    NormContacts.normalize_date "Feb 1 1990" today = some "1990-02-01" := by
  have h0 : NormContacts.normalize_date "Feb 1 1990" today =
      if dateLt today ⟨1990, 2, 1⟩ then none else some "1990-02-01" := rfl
  rw [h0, h]
  rfl

theorem c2row1 (today : Date) (h : dateLt today ⟨1990, 2, 1⟩ = false) :
    NormContacts.normalize_row
        [("id", "A1"), ("phone", "0501234567"), ("dob", "01/02/1990")] today =
      .ok ⟨"A1", "+971501234567", "1990-02-01"⟩ := by
  have h0 : NormContacts.normalize_row
      [("id", "A1"), ("phone", "0501234567"), ("dob", "01/02/1990")] today =
      (match NormContacts.normalize_date "01/02/1990" today with
       | none => Except.error ("Invalid date of birth: " ++ "01/02/1990")
       | some nd => Except.ok ⟨"A1", "+971501234567", nd⟩) := rfl
  rw [h0, nd_amb_19900201 today h]

theorem c2row2 (today : Date) (h : dateLt today ⟨1990, 2, 1⟩ = false) :
    NormContacts.normalize_row
        [("id", "A2"), ("phone", "+1(415)-555-2671"), ("dob", "Feb 1 1990")] today =
      .ok ⟨"A2", "+14155552671", "1990-02-01"⟩ := by
  have h0 : NormContacts.normalize_row
      [("id", "A2"), ("phone", "+1(415)-555-2671"), ("dob", "Feb 1 1990")] today =
      (match NormContacts.normalize_date "Feb 1 1990" today with
       | none => Except.error ("Invalid date of birth: " ++ "Feb 1 1990")
       | some nd => Except.ok ⟨"A2", "+14155552671", nd⟩) := rfl
  rw [h0, nd_feb1 today h]

theorem c2row3 (today : Date) :
    NormContacts.normalize_row
        [("id", "A3"), ("phone", ""), ("dob", "01/02/1990")] today =
      .error "Invalid phone: " := rfl

theorem c2row4 (today : Date) :
    NormContacts.normalize_row
        [("id", ""), ("phone", "0501234567"), ("dob", "01/02/1990")] today =
      .error "Missing id" := rfl

theorem c2row5 (today : Date) :
    NormContacts.normalize_row
        [("id", "A4"), ("phone", "0501234567"), ("dob", "")] today =
      .error "Invalid date of birth: " := rfl

theorem c2full (today : Date) (h : dateLt today ⟨1990, 2, 1⟩ = false) :
    NormContacts.process_single c2Rows today =
      (⟨5, 2, 3,
        ["Row 4 (ID: A3): Invalid phone: ",
         "Row 5 (ID: ): Missing id",
         "Row 6 (ID: A4): Invalid date of birth: "]⟩,
       [⟨"A1", "+971501234567", "1990-02-01"⟩,
        ⟨"A2", "+14155552671", "1990-02-01"⟩]) := by
  unfold NormContacts.process_single c2Rows
  simp only [List.enumFrom, List.foldl_cons, List.foldl_nil, NormContacts.singleStep,
    c2row1 today h, c2row2 today h, c2row3 today, c2row4 today, c2row5 today]
  rfl

/-! ## Structure of successful phone normalizations -/

/-- Any canonical phone ('+' then 8..15 digits) is returned unchanged. -/
theorem normalize_phone_canonical (ds : List Char)
    (hds : ∀ c ∈ ds, c.isDigit = true) (h8 : 8 ≤ ds.length) (h15 : ds.length ≤ 15) :
    normalize_phone (String.mk ('+' :: ds)) = some (String.mk ('+' :: ds)) := by
  have hfilter : ds.filter Char.isDigit = ds := List.filter_eq_self.mpr hds
  have hne : ds ≠ [] := by
    intro hnil
    subst hnil
    simp at h8
  have h0 : normalize_phone (String.mk ('+' :: ds)) =
      (if ds.filter Char.isDigit = [] then none
       else if 8 ≤ (ds.filter Char.isDigit).length ∧ (ds.filter Char.isDigit).length ≤ 15 then
         some (String.mk ('+' :: ds.filter Char.isDigit))
       else none) := rfl
  rw [h0, hfilter, if_neg hne, if_pos ⟨h8, h15⟩]

/-- Every successful normalize_phone output is '+' followed by 8..15 digits. -/
theorem normalize_phone_shape (s r : String) (h : normalize_phone s = some r) :
    ∃ ds : List Char, r = String.mk ('+' :: ds) ∧ (∀ c ∈ ds, c.isDigit = true) ∧
      8 ≤ ds.length ∧ ds.length ≤ 15 := by
  unfold normalize_phone at h
  cases hs : s.data with
  | nil => rw [hs] at h; cases h
  | cons c rest =>
      rw [hs] at h
      by_cases hc : c = '+'
      · subst hc
        have h1 : (if rest.filter Char.isDigit = [] then none
            else if 8 ≤ (rest.filter Char.isDigit).length ∧
                (rest.filter Char.isDigit).length ≤ 15 then
              some (String.mk ('+' :: rest.filter Char.isDigit))
            else none) = some r := h
        by_cases hnil : rest.filter Char.isDigit = []
        · rw [if_pos hnil] at h1; cases h1
        · rw [if_neg hnil] at h1
          by_cases hlen : 8 ≤ (rest.filter Char.isDigit).length ∧
              (rest.filter Char.isDigit).length ≤ 15
          · rw [if_pos hlen] at h1
            cases h1
            exact ⟨rest.filter Char.isDigit, rfl,
              fun c hc2 => (List.mem_filter.mp hc2).2, hlen.1, hlen.2⟩
          · rw [if_neg hlen] at h1; cases h1
      · have h1 : (if c = '+' then
            (if rest.filter Char.isDigit = [] then none
             else if 8 ≤ (rest.filter Char.isDigit).length ∧
                 (rest.filter Char.isDigit).length ≤ 15 then
               some (String.mk ('+' :: rest.filter Char.isDigit))
             else none)
            else
            (if (c :: rest).filter Char.isDigit = [] then none
             else if ((c :: rest).filter Char.isDigit).head? = some '0' ∧
                 ((c :: rest).filter Char.isDigit).length = 10 then
               some (String.mk ('+' :: '9' :: '7' :: '1' ::
                 ((c :: rest).filter Char.isDigit).tail))
             else if startsWith971 ((c :: rest).filter Char.isDigit) ∧
                 8 ≤ ((c :: rest).filter Char.isDigit).length ∧
                 ((c :: rest).filter Char.isDigit).length ≤ 15 then
               some (String.mk ('+' :: (c :: rest).filter Char.isDigit))
             else if 8 ≤ ((c :: rest).filter Char.isDigit).length ∧
                 ((c :: rest).filter Char.isDigit).length ≤ 15 then
               some (String.mk ('+' :: (c :: rest).filter Char.isDigit))
             else none)) = some r := h
        rw [if_neg hc] at h1
        have hdigall : ∀ a ∈ (c :: rest).filter Char.isDigit, a.isDigit = true :=
          fun a ha => (List.mem_filter.mp ha).2
        by_cases hnil : (c :: rest).filter Char.isDigit = []
        · rw [if_pos hnil] at h1; cases h1
        · rw [if_neg hnil] at h1
          by_cases h01 : ((c :: rest).filter Char.isDigit).head? = some '0' ∧
              ((c :: rest).filter Char.isDigit).length = 10
          · rw [if_pos h01] at h1
            cases h1
            refine ⟨'9' :: '7' :: '1' :: ((c :: rest).filter Char.isDigit).tail,
              rfl, ?_, ?_, ?_⟩
            · intro a ha
              rcases List.mem_cons.mp ha with rfl | ha
              · decide
              rcases List.mem_cons.mp ha with rfl | ha
              · decide
              rcases List.mem_cons.mp ha with rfl | ha
              · decide
              · exact hdigall a ((List.tail_sublist _).subset ha)
            · simp [List.length_tail, h01.2]
            · simp [List.length_tail, h01.2]
          · rw [if_neg h01] at h1
            by_cases h971 : startsWith971 ((c :: rest).filter Char.isDigit) ∧
                8 ≤ ((c :: rest).filter Char.isDigit).length ∧
                ((c :: rest).filter Char.isDigit).length ≤ 15
            · rw [if_pos h971] at h1
              cases h1
              exact ⟨(c :: rest).filter Char.isDigit, rfl, hdigall,
                h971.2.1, h971.2.2⟩
            · rw [if_neg h971] at h1
              by_cases hgen : 8 ≤ ((c :: rest).filter Char.isDigit).length ∧
                  ((c :: rest).filter Char.isDigit).length ≤ 15
              · rw [if_pos hgen] at h1
                cases h1
                exact ⟨(c :: rest).filter Char.isDigit, rfl, hdigall,
                  hgen.1, hgen.2⟩
              · rw [if_neg hgen] at h1; cases h1

/-! ## Support: the date normalizer of normalize_contacts.py never returns a
future date, and the ambiguous resolver prefers its first candidate -/

theorem normContacts_date_never_future (s : String) (today : Date) (r : String)
    (h : NormContacts.normalize_date s today = some r) :
    ∃ d : Date, r = strftimeYMD d ∧ dateLt today d = false := by
  unfold NormContacts.normalize_date at h
  split at h
  · exact absurd h (by simp)
  · split at h
    · split at h
      · exact absurd h (by simp)
      · next hnotlt =>
          cases h
          exact ⟨_, rfl, by simpa using hnotlt⟩
    · split at h
      · split at h
        · exact absurd h (by simp)
        · next hnotlt =>
            cases h
            exact ⟨_, rfl, by simpa using hnotlt⟩
      · exact absurd h (by simp)

theorem parse_ambiguous_prefers_first (s : List Char) (p1 p2 p3 : Nat)
    (rest : List Nat) (hnums : digitRuns s = p1 :: p2 :: p3 :: rest)
    (y d1 m1 d2 m2 : Nat)
    (hparts : NormContacts.chooseYearParts p1 p2 p3 = (y, d1, m1, d2, m2))
    (dt : Date) (hok : 1 ≤ d1 ∧ d1 ≤ 31 ∧ 1 ≤ m1 ∧ m1 ≤ 12)
    (hmk : mkDatetime (pivotYear y) m1 d1 = some dt) :
    NormContacts.parse_ambiguous_date s = some dt := by
  unfold NormContacts.parse_ambiguous_date
  rw [hnums]
  simp only [hparts]
  rw [if_pos hok, hmk]

/-! ## Spec-side descriptions used by the amended claims -/

/-- The year/candidate choice as the amended claim C6 describes it for
normalize_contacts.py (note branch (c), a middle year, pairs the THIRD
number as day with the FIRST as month). -/
def claimYearChoiceNew (n1 n2 n3 : Nat) : Nat × Nat × Nat × Nat × Nat :=
  if n3 ≥ 1000 ∨ n3 > 31 then (n3, n1, n2, n2, n1)
  else if n1 ≥ 1000 ∨ n1 > 31 then (n1, n2, n3, n3, n2)
  else if n2 ≥ 1000 then (n2, n3, n1, n1, n3)
  else (n3, n1, n2, n2, n1)

/-- The year/candidate choice of normalize_contact.py as the amended claim
describes it: n3 if n3 > 31, else n1 if n1 > 31, else ALWAYS n2, with the
candidate pairs (n3, n1) / (n1, n3) in the final branch. -/
def claimYearChoiceOld (n1 n2 n3 : Nat) : Nat × Nat × Nat × Nat × Nat :=
  if n3 > 31 then (n3, n1, n2, n2, n1)
  else if n1 > 31 then (n1, n2, n3, n3, n2)
  else (n2, n3, n1, n1, n3)

/-- The per-row error description the worker produces (raw-row id lookup). -/
def errOfWorker (today : Date) (ir : Nat × Row) : Option String :=
  match NormContacts.normalize_row ir.2 today with
  | .ok _ => none
  | .error e =>
      some (NormContacts.errLine ir.1 (dictGet ir.2 "id" "unknown") e)

/-- The error list _process_single accumulates, described row by row. -/
def singleErrors (rows : List Row) (today : Date) : List String :=
  (List.enumFrom 2 rows).filterMap (NormContacts.errOfSingle today)

/-- The error list _process_multiprocess accumulates (results arrive in
pool.imap order, i.e. input order), described row by row. -/
def mpErrors (rows : List Row) (today : Date) : List String :=
  (List.enumFrom 2 rows).filterMap (errOfWorker today)

theorem single_errors_formula (rows : List Row) (today : Date) :
    (NormContacts.process_single rows today).1.errors = singleErrors rows today := by
  unfold NormContacts.process_single singleErrors
  rw [NormContacts.single_fold_errors today rows 2 NormContacts.Stats.empty []]
  simp [NormContacts.Stats.empty]

theorem mp_errors_formula (rows : List Row) (today : Date) (W : Nat) :
    (NormContacts.process_multiprocess W
        (NormContacts.mpResults rows today)).stats.errors = mpErrors rows today := by
  rw [NormContacts.process_mp_stats_def, NormContacts.mp_fold_errors]
  unfold NormContacts.mpResults mpErrors
  rw [List.filterMap_map]
  have hcomp : ((fun r : Nat × NormContacts.Payload => r.2.2) ∘
      NormContacts.worker_pack today) = errOfWorker today := by
    funext ir
    exact NormContacts.worker_pack_error today ir
  rw [hcomp]
  simp [NormContacts.Stats.empty]

/-! ## Claim theorems -/

/-- C1: in parallel mode, for every worker count W >= 1 and every completion
order of the workers (any permutation of the sequenced worker results), the
rows written to the output sink are exactly the successfully normalized rows
in strictly increasing sequence-number order, and this output row sequence is
identical to the one produced by single-threaded mode on the same input (the
input row order filtered to successes only). -/
theorem c1_parallel_order_equivalence (rows : List Row) (today : Date)
    (W : Nat) (arr : List (Nat × NormContacts.Payload))
    (_hW : 1 ≤ W) (harr : arr.Perm (NormContacts.mpResults rows today)) :
    (NormContacts.process_multiprocess W arr).output =
      (NormContacts.process_single rows today).2 ∧
    (NormContacts.process_single rows today).2 =
      NormContacts.successes rows today := by
  have hperm2 : arr.Perm (List.enumFrom 2 (NormContacts.mpPayloads rows today)) := by
    rw [← NormContacts.mpResults_eq_enum]
    exact harr
  have h1 := NormContacts.process_mp_output (NormContacts.mpPayloads rows today)
    arr hperm2 W
  rw [NormContacts.mpPayloads_successes] at h1
  have h2 : (NormContacts.process_single rows today).2 =
      NormContacts.successes rows today := by
    unfold NormContacts.process_single
    rw [NormContacts.single_fold_out today rows 2 NormContacts.Stats.empty []]
    simp
  exact ⟨h1.trans h2.symm, h2⟩

def c1Rows : List Row :=
  [ [("id", "B1"), ("phone", "0501234567"), ("dob", "1990-02-01")]
  , [("id", ""), ("phone", "0501234567"), ("dob", "1990-02-01")]
  , [("id", "B3"), ("phone", "+1(415)-555-2671"), ("dob", "19900201")] ]

def c1Arr : List (Nat × NormContacts.Payload) :=
  (NormContacts.mpResults c1Rows ⟨2026, 10, 12⟩).reverse

theorem c1_witness :
    (1 ≤ 2 ∧ c1Arr.Perm (NormContacts.mpResults c1Rows ⟨2026, 10, 12⟩)) ∧
    ((NormContacts.process_multiprocess 2 c1Arr).output =
       (NormContacts.process_single c1Rows ⟨2026, 10, 12⟩).2 ∧
     (NormContacts.process_single c1Rows ⟨2026, 10, 12⟩).2 =
       NormContacts.successes c1Rows ⟨2026, 10, 12⟩) :=
  ⟨⟨by decide, by decide⟩,
   c1_parallel_order_equivalence c1Rows ⟨2026, 10, 12⟩ 2 c1Arr (by decide) (by decide)⟩

/-- C2: processing the five test rows produces exactly the two normalized
rows for A1 and A2, in that order, with total=5, normalized=2, skipped=3
(for any processing date on or after 1990-02-01). -/
theorem c2_end_to_end (today : Date) (h : dateLt today ⟨1990, 2, 1⟩ = false) :
    (NormContacts.process_single c2Rows today).2 =
      [⟨"A1", "+971501234567", "1990-02-01"⟩,
       ⟨"A2", "+14155552671", "1990-02-01"⟩] ∧
    (NormContacts.process_single c2Rows today).1.total = 5 ∧
    (NormContacts.process_single c2Rows today).1.normalized = 2 ∧
    (NormContacts.process_single c2Rows today).1.skipped = 3 := by
  rw [c2full today h]
  exact ⟨rfl, rfl, rfl, rfl⟩

theorem c2_witness :
    dateLt ⟨2026, 10, 12⟩ ⟨1990, 2, 1⟩ = false ∧
    ((NormContacts.process_single c2Rows ⟨2026, 10, 12⟩).2 =
       [⟨"A1", "+971501234567", "1990-02-01"⟩,
        ⟨"A2", "+14155552671", "1990-02-01"⟩] ∧
     (NormContacts.process_single c2Rows ⟨2026, 10, 12⟩).1.total = 5 ∧
     (NormContacts.process_single c2Rows ⟨2026, 10, 12⟩).1.normalized = 2 ∧
     (NormContacts.process_single c2Rows ⟨2026, 10, 12⟩).1.skipped = 3) :=
  ⟨by decide, c2_end_to_end ⟨2026, 10, 12⟩ (by decide)⟩

/-- C3: for every completed run, total = normalized + skipped and the number
of recorded error descriptions equals skipped; each row updates the
statistics exactly once (total equals the number of data rows), in both
single-threaded and parallel mode (the latter for every completion order). -/
theorem c3_stats_invariant (rows : List Row) (today : Date) (W : Nat)
    (arr : List (Nat × NormContacts.Payload))
    (harr : arr.Perm (NormContacts.mpResults rows today)) :
    ((NormContacts.process_single rows today).1.total = rows.length ∧
     (NormContacts.process_single rows today).1.total =
       (NormContacts.process_single rows today).1.normalized +
         (NormContacts.process_single rows today).1.skipped ∧
     (NormContacts.process_single rows today).1.errors.length =
       (NormContacts.process_single rows today).1.skipped) ∧
    ((NormContacts.process_multiprocess W arr).stats.total = rows.length ∧
     (NormContacts.process_multiprocess W arr).stats.total =
       (NormContacts.process_multiprocess W arr).stats.normalized +
         (NormContacts.process_multiprocess W arr).stats.skipped ∧
     (NormContacts.process_multiprocess W arr).stats.errors.length =
       (NormContacts.process_multiprocess W arr).stats.skipped) := by
  constructor
  · unfold NormContacts.process_single
    have ht := NormContacts.single_fold_total today rows 2 NormContacts.Stats.empty []
    have hns := NormContacts.single_fold_norm_skip today rows 2 NormContacts.Stats.empty []
    have hes := NormContacts.single_fold_errskip today rows 2 NormContacts.Stats.empty []
    simp only [NormContacts.Stats.empty, List.length_nil] at ht hns hes ⊢
    exact ⟨by omega, by omega, by omega⟩
  · have hlen : arr.length = rows.length := by
      have h1 := harr.length_eq
      simpa [NormContacts.mpResults] using h1
    have ht := NormContacts.mp_fold_total arr ⟨NormContacts.Stats.empty, [], 2, []⟩
    have hns := NormContacts.mp_fold_ns arr ⟨NormContacts.Stats.empty, [], 2, []⟩
    have hsk := NormContacts.mp_fold_skipped arr ⟨NormContacts.Stats.empty, [], 2, []⟩
    have her := NormContacts.mp_fold_errors arr ⟨NormContacts.Stats.empty, [], 2, []⟩
    rw [NormContacts.process_mp_stats_def]
    simp only [NormContacts.Stats.empty, List.nil_append, List.length_nil]
      at ht hns hsk her ⊢
    refine ⟨by omega, by omega, ?_⟩
    rw [her]
    omega

def c3Rows : List Row :=
  [ [("id", "D1"), ("phone", "0501234567"), ("dob", "1990-02-01")]
  , [("id", "D2"), ("phone", "123"), ("dob", "1990-02-01")] ]

def c3Arr : List (Nat × NormContacts.Payload) :=
  (NormContacts.mpResults c3Rows ⟨2026, 10, 12⟩).reverse

theorem c3_witness :
    c3Arr.Perm (NormContacts.mpResults c3Rows ⟨2026, 10, 12⟩) ∧
    (((NormContacts.process_single c3Rows ⟨2026, 10, 12⟩).1.total = c3Rows.length ∧
      (NormContacts.process_single c3Rows ⟨2026, 10, 12⟩).1.total =
        (NormContacts.process_single c3Rows ⟨2026, 10, 12⟩).1.normalized +
          (NormContacts.process_single c3Rows ⟨2026, 10, 12⟩).1.skipped ∧
      (NormContacts.process_single c3Rows ⟨2026, 10, 12⟩).1.errors.length =
        (NormContacts.process_single c3Rows ⟨2026, 10, 12⟩).1.skipped) ∧
     ((NormContacts.process_multiprocess 3 c3Arr).stats.total = c3Rows.length ∧
      (NormContacts.process_multiprocess 3 c3Arr).stats.total =
        (NormContacts.process_multiprocess 3 c3Arr).stats.normalized +
          (NormContacts.process_multiprocess 3 c3Arr).stats.skipped ∧
      (NormContacts.process_multiprocess 3 c3Arr).stats.errors.length =
        (NormContacts.process_multiprocess 3 c3Arr).stats.skipped)) :=
  ⟨by decide, c3_stats_invariant c3Rows ⟨2026, 10, 12⟩ 3 c3Arr (by decide)⟩

/-- C4: the spec requires any resolved date strictly after the current moment
to be rejected.  normalize_contacts.py enforces this on both paths (see
normContacts_date_never_future), but normalize_contact.py's normalize_date
contains no comparison against the current time at all: on the future date
"2999-01-01" it succeeds instead of failing. -/
theorem c4_old_file_accepts_future_date :
    NormContact.normalize_date "2999-01-01" = some "2999-01-01" := by decide

/-- C5: the day-first preference.  normalize_contacts.py resolves
"01/02/1990" day-first to 1990-02-01 (see also
parse_ambiguous_prefers_first), but normalize_contact.py parses the same
string with its explicit "%m/%d/%Y" format - listed before "%d/%m/%Y" - and
returns the month-first reading 1990-01-02, contradicting the claim's
normalizeDate("01/02/1990") = "1990-02-01". -/
theorem c5_old_file_breaks_day_first :
    NormContacts.normalize_date "01/02/1990" ⟨2026, 10, 12⟩ = some "1990-02-01" ∧
    NormContact.normalize_date "01/02/1990" = some "1990-01-02" :=
  ⟨by decide, by decide⟩

/-- C6 counterexample: the claim as stated is false.  In
normalize_contacts.py's resolver, when the middle number is the year
(branch n2 >= 1000) the remaining two numbers are NOT kept in their relative
positions: for "05/2000/07" the day-first candidate is (day=07, month=05),
so the result is 2000-05-07, not the position-preserving 2000-07-05.  And
normalize_contact.py's resolver uses a different precedence altogether: its
final branch always takes the SECOND number as the year, so "01/02/03"
resolves to 2002-01-03 instead of year 2003. -/
theorem c6_counterexample :
    NormContacts.parse_ambiguous_date "05/2000/07".data = some ⟨2000, 5, 7⟩ ∧
    NormContacts.parse_ambiguous_date "05/2000/07".data ≠ some ⟨2000, 7, 5⟩ ∧
    NormContact.parse_ambiguous_date "01/02/03".data = some "2002-01-03" :=
  ⟨by decide, by decide, by decide⟩

/-- C6 (amended): in normalize_contacts.py the year precedence is exactly
n3 if n3 >= 1000 or n3 > 31; else n1 if n1 >= 1000 or n1 > 31; else n2 if
n2 >= 1000; else n3 - with the remaining numbers kept in their relative
positions except in the middle-year branch, where the day-first candidate
pairs the third number as day with the first as month.  In
normalize_contact.py the precedence is n3 if n3 > 31, else n1 if n1 > 31,
else always n2, with candidate pairs (n3, n1) / (n1, n3) in that final
branch. -/
theorem c6_amended_year_choice :
    (∀ n1 n2 n3 : Nat,
       NormContacts.chooseYearParts n1 n2 n3 = claimYearChoiceNew n1 n2 n3) ∧
    (∀ n1 n2 n3 : Nat,
       NormContact.chooseYearParts n1 n2 n3 = claimYearChoiceOld n1 n2 n3) :=
  ⟨fun _ _ _ => rfl, fun _ _ _ => rfl⟩

/-- C7 counterexample: the claim as stated is false for explicit two-digit
year patterns.  "01-Feb-26" is parsed by "%d-%b-%y", and strptime itself
expands the two-digit year by the POSIX 1969 pivot (00-68 -> 2000-2068), so
the result is 2026-02-01.  The claimed pivot rule (26 -> 1926) would give
1926-02-01. -/
theorem c7_counterexample :
    NormContacts.normalize_date "01-Feb-26" ⟨2026, 10, 12⟩ = some "2026-02-01" ∧
    NormContacts.normalize_date "01-Feb-26" ⟨2026, 10, 12⟩ ≠ some "1926-02-01" :=
  ⟨by decide, by decide⟩

/-- C7 (amended): the 00-25/26-99 pivot rule applies to the ambiguous
resolver (so "01-02-25" -> 2025-02-01 and "01-02-26" -> 1926-02-01) and to
explicit-pattern parses whose resulting year is below 100; but explicit
patterns with a %y field expand the year inside strptime by the POSIX rule
(00-68 -> 2000s, 69-99 -> 1900s), so e.g. year 26 becomes 2026 there. -/
theorem c7_amended_pivot (today : Date)
    (h25 : dateLt today ⟨2025, 2, 1⟩ = false)
    (h26 : dateLt today ⟨1926, 2, 1⟩ = false)
    (h2026 : dateLt today ⟨2026, 2, 1⟩ = false) :
    NormContacts.normalize_date "01-02-25" today = some "2025-02-01" ∧
    NormContacts.normalize_date "01-02-26" today = some "1926-02-01" ∧
    NormContacts.normalize_date "01-Feb-26" today = some "2026-02-01" ∧
    (∀ y, y < 100 → pivotYear y = if y ≤ 25 then 2000 + y else 1900 + y) ∧
    (∀ v, 26 ≤ v → v ≤ 68 → pivot68 v = 2000 + v) := by
  refine ⟨?_, ?_, ?_, ?_, ?_⟩
  · have h0 : NormContacts.normalize_date "01-02-25" today =
        if dateLt today ⟨2025, 2, 1⟩ then none else some "2025-02-01" := rfl
    rw [h0, h25]
    rfl
  · have h0 : NormContacts.normalize_date "01-02-26" today =
        if dateLt today ⟨1926, 2, 1⟩ then none else some "1926-02-01" := rfl
    rw [h0, h26]
    rfl
  · have h0 : NormContacts.normalize_date "01-Feb-26" today =
        if dateLt today ⟨2026, 2, 1⟩ then none else some "2026-02-01" := rfl
    rw [h0, h2026]
    rfl
  · intro y hy
    unfold pivotYear
    rw [if_pos hy]
  · intro v _ h2
    unfold pivot68
    rw [if_pos h2]

theorem c7_witness :
    (dateLt ⟨2026, 10, 12⟩ ⟨2025, 2, 1⟩ = false ∧
     dateLt ⟨2026, 10, 12⟩ ⟨1926, 2, 1⟩ = false ∧
     dateLt ⟨2026, 10, 12⟩ ⟨2026, 2, 1⟩ = false) ∧
    (NormContacts.normalize_date "01-02-25" ⟨2026, 10, 12⟩ = some "2025-02-01" ∧
     NormContacts.normalize_date "01-02-26" ⟨2026, 10, 12⟩ = some "1926-02-01" ∧
     NormContacts.normalize_date "01-Feb-26" ⟨2026, 10, 12⟩ = some "2026-02-01" ∧
     (∀ y, y < 100 → pivotYear y = if y ≤ 25 then 2000 + y else 1900 + y) ∧
     (∀ v, 26 ≤ v → v ≤ 68 → pivot68 v = 2000 + v)) :=
  ⟨⟨by decide, by decide, by decide⟩,
   c7_amended_pivot ⟨2026, 10, 12⟩ (by decide) (by decide) (by decide)⟩

/-- C8: a row whose id is empty after trimming fails with the missing-id
reason and never with a phone or date reason, regardless of the other
fields. -/
theorem c8_missing_id (row : Row) (today : Date)
    (h : trimS (dictGet (lowerRow row) "id" "") = "") :
    NormContacts.normalize_row row today = .error "Missing id" := by
  simp only [NormContacts.normalize_row]
  rw [h]
  simp

def c8Row : Row := [("id", "   "), ("phone", "not-a-phone"), ("dob", "also bad")]

theorem c8_witness :
    trimS (dictGet (lowerRow c8Row) "id" "") = "" ∧
    NormContacts.normalize_row c8Row ⟨2026, 10, 12⟩ = .error "Missing id" :=
  ⟨by decide, c8_missing_id c8Row ⟨2026, 10, 12⟩ (by decide)⟩

/-- C9 counterexample: the claim as stated is false in two ways.  The date
failure reason is "Invalid date of birth: <raw>", not "invalid date: <raw>";
and the two modes do NOT always format the id identically: worker_pack reads
the id from the raw row (no key lowering, no trimming, default 'unknown'),
while _process_single reads it from the lowered, trimmed row, so a row whose
id column is spelled "ID" is reported as 'unknown' in parallel mode but as
its value in single-threaded mode. -/
theorem c9_counterexample :
    (NormContacts.process_single
        [[("id", "A4"), ("phone", "0501234567"), ("dob", "")]]
        ⟨2026, 10, 12⟩).1.errors =
      ["Row 2 (ID: A4): Invalid date of birth: "] ∧
    ("Row 2 (ID: A4): Invalid date of birth: " ≠
      "Row 2 (ID: A4): invalid date: ") ∧
    (NormContacts.process_multiprocess 1
        (NormContacts.mpResults
          [[("ID", "B1"), ("phone", "x"), ("dob", "01/02/1990")]]
          ⟨2026, 10, 12⟩)).stats.errors =
      ["Row 2 (ID: unknown): Invalid phone: x"] ∧
    (NormContacts.process_single
        [[("ID", "B1"), ("phone", "x"), ("dob", "01/02/1990")]]
        ⟨2026, 10, 12⟩).1.errors =
      ["Row 2 (ID: B1): Invalid phone: x"] :=
  ⟨by decide, by decide, by decide, by decide⟩

/-- C9 (amended): every skipped row appends exactly one error description
"Row <sequence> (ID: <id>): <reason>" where the reason is "Missing id",
"Invalid phone: <trimmed raw>" or "Invalid date of birth: <trimmed raw>".
In single-threaded mode the id part is the trimmed value under the
lower-cased 'id' key (default 'unknown'); in parallel mode worker_pack uses
the raw row's exact 'id' key untrimmed (default 'unknown'), so the two modes
agree only when those lookups coincide. -/
theorem c9_amended_error_format (rows : List Row) (today : Date) (W : Nat) :
    (NormContacts.process_single rows today).1.errors = singleErrors rows today ∧
    (NormContacts.process_multiprocess W
        (NormContacts.mpResults rows today)).stats.errors = mpErrors rows today :=
  ⟨single_errors_formula rows today, mp_errors_formula rows today W⟩

/-- C10: a string of '+' followed by 8-15 digits is returned unchanged, and
normalize_phone is idempotent on every success. -/
theorem c10_phone_idempotent :
    (∀ ds : List Char, (∀ c ∈ ds, c.isDigit = true) → 8 ≤ ds.length →
      ds.length ≤ 15 →
      normalize_phone (String.mk ('+' :: ds)) = some (String.mk ('+' :: ds))) ∧
    (∀ s r : String, normalize_phone s = some r → normalize_phone r = some r) := by
  constructor
  · exact normalize_phone_canonical
  · intro s r h
    obtain ⟨ds, rfl, hds, h8, h15⟩ := normalize_phone_shape s r h
    exact normalize_phone_canonical ds hds h8 h15

theorem c10_witness :
    normalize_phone (String.mk ('+' :: ['1', '2', '3', '4', '5', '6', '7', '8'])) =
      some (String.mk ('+' :: ['1', '2', '3', '4', '5', '6', '7', '8'])) ∧
    normalize_phone "+971501234567" = some "+971501234567" :=
  ⟨c10_phone_idempotent.1 ['1', '2', '3', '4', '5', '6', '7', '8']
     (by decide) (by decide) (by decide),
   c10_phone_idempotent.2 "0501234567" "+971501234567" (by decide)⟩
